import Mathlib

/-!
Verification of the time-tracking application's pure calculation core.

The definitions below are shallow embeddings of the TypeScript functions in
the time-utils / notification-service modules (quarter-hour rounding,
decimal-hours formatting, the lenient `hoursToDecimal` parser),
`components/ui/time-input.tsx` (`parseTimeInput`),
`services/form-validation.service.ts` (the rule-list form validator) and the
tracked-time page (`getDayStatus`, the day reconciliation classifier).
JavaScript numbers are modelled as rationals, `Math.ceil` as `Int.ceil`,
`Math.floor` as `Int.floor` and `Math.round` as `fun x => ⌊x + 1/2⌋`
(round half up, which is JavaScript's behaviour).
-/

namespace TimeTracking

/-- JavaScript `Math.round`: round half up to an integer. -/
def jsRound (x : ℚ) : ℤ := ⌊x + 1/2⌋

/-- Embeds `roundToNearestQuarterHour` (time-utils / notification-service
module): convert decimal hours to minutes, take the ceiling to the next
multiple of 15 minutes, convert back. -/
def roundToNearestQuarterHour (decimalHours : ℚ) : ℚ :=
  let totalMinutes := decimalHours * 60
  let roundedMinutes : ℤ := ⌈totalMinutes / 15⌉ * 15
  (roundedMinutes : ℚ) / 60

/-- The rendering half of `formatDecimalHours`, applied to the already-split
whole hours `H` and minutes `M`: start from the empty string, append `"{H}h"`
when hours are positive, append `"{M}m"` when minutes are positive, with the
special case `"0h"` when both are zero. -/
def formatHM (H M : ℤ) : String :=
  if H = 0 ∧ M = 0 then "0h"
  else
    let r1 : String := ""
    let r2 : String := if 0 < H then r1 ++ toString H ++ "h" else r1
    if 0 < M then r2 ++ toString M ++ "m" else r2

/-- Embeds `formatDecimalHours`: split into whole hours (`Math.floor`) and the
rounded-to-nearest-minute remainder (`Math.round`), then render via
`formatHM`. -/
def formatDecimalHours (decimalHours : ℚ) : String :=
  formatHM ⌊decimalHours⌋ (jsRound ((decimalHours - (⌊decimalHours⌋ : ℚ)) * 60))

/-- `roundToNearestQuarterHour` in closed form: the ceiling of `4x` quarters. -/
lemma roundToNearestQuarterHour_eq_ceil (x : ℚ) :
    roundToNearestQuarterHour x = (⌈x * 4⌉ : ℚ) / 4 := by
  simp only [roundToNearestQuarterHour]
  have h : x * 60 / 15 = x * 4 := by ring
  rw [h]
  push_cast
  ring

/-- Evaluation helper: once the floor and the rounded minutes of `x` are
known, `formatDecimalHours x` reduces to `formatHM`. -/
lemma formatDecimalHours_eval {x : ℚ} {H M : ℤ} (hH : ⌊x⌋ = H)
    (hM : jsRound ((x - (H : ℚ)) * 60) = M) :
    formatDecimalHours x = formatHM H M := by
  unfold formatDecimalHours
  rw [hH, hM]

/-- C4: for every x ≥ 0, `roundToNearestQuarterHour x` is the smallest multiple
of 0.25 that is ≥ x (so it never rounds down), and the concrete examples
round(2.1) = 2.25, round(0.01) = 0.25, round(0) = 0 hold. -/
theorem roundToNearestQuarterHour_spec :
    (∀ x : ℚ, 0 ≤ x →
      (∃ k : ℤ, roundToNearestQuarterHour x = (k : ℚ) * (1/4)) ∧
      x ≤ roundToNearestQuarterHour x ∧
      (∀ y : ℚ, (∃ k : ℤ, y = (k : ℚ) * (1/4)) → x ≤ y →
        roundToNearestQuarterHour x ≤ y))
    ∧ roundToNearestQuarterHour (21/10) = 9/4
    ∧ roundToNearestQuarterHour (1/100) = 1/4
    ∧ roundToNearestQuarterHour 0 = 0 := by
  refine ⟨fun x _ => ?_, ?_, ?_, ?_⟩
  · rw [roundToNearestQuarterHour_eq_ceil]
    refine ⟨⟨⌈x * 4⌉, by ring⟩, ?_, ?_⟩
    · have h := Int.le_ceil (x * 4)
      rw [div_eq_mul_inv]
      nlinarith
    · rintro y ⟨k, rfl⟩ hxy
      have hk : x * 4 ≤ (k : ℚ) := by nlinarith
      have hc : (⌈x * 4⌉ : ℚ) ≤ (k : ℚ) := by
        exact_mod_cast Int.ceil_le.mpr hk
      nlinarith
  · rw [roundToNearestQuarterHour_eq_ceil]
    have h : (⌈(21/10 : ℚ) * 4⌉ : ℤ) = 9 := by
      rw [Int.ceil_eq_iff] <;> norm_num
    rw [h]; norm_num
  · rw [roundToNearestQuarterHour_eq_ceil]
    have h : (⌈(1/100 : ℚ) * 4⌉ : ℤ) = 1 := by
      rw [Int.ceil_eq_iff] <;> norm_num
    rw [h]; norm_num
  · rw [roundToNearestQuarterHour_eq_ceil]
    have h : (⌈(0 : ℚ) * 4⌉ : ℤ) = 0 := by
      rw [Int.ceil_eq_iff] <;> norm_num
    rw [h]; norm_num

/-- C4 witness: the general statement instantiated at x = 2.1. -/
theorem roundToNearestQuarterHour_spec_witness :
    (0 : ℚ) ≤ 21/10 ∧
    ((∃ k : ℤ, roundToNearestQuarterHour (21/10) = (k : ℚ) * (1/4)) ∧
     (21/10 : ℚ) ≤ roundToNearestQuarterHour (21/10) ∧
     (∀ y : ℚ, (∃ k : ℤ, y = (k : ℚ) * (1/4)) → (21/10 : ℚ) ≤ y →
       roundToNearestQuarterHour (21/10) ≤ y)) :=
  ⟨by norm_num, roundToNearestQuarterHour_spec.1 (21/10) (by norm_num)⟩

/-- Rendering rules exactly as the specification words them: `"{h}h{m}m"` when
both components are non-zero, `"{h}h"` when minutes are zero, `"{m}m"` when
hours are zero, `"0h"` when both are zero. -/
def specRender (h m : ℤ) : String :=
  if h ≠ 0 ∧ m ≠ 0 then toString h ++ "h" ++ toString m ++ "m"
  else if m = 0 ∧ h ≠ 0 then toString h ++ "h"
  else if h = 0 ∧ m ≠ 0 then toString m ++ "m"
  else "0h"

/-- The specification's formatter: whole hours `⌊x⌋`, minutes = the remainder
rounded to the nearest minute, rendered by `specRender`. -/
def formatDecimalHoursSpec (x : ℚ) : String :=
  specRender ⌊x⌋ (jsRound ((x - (⌊x⌋ : ℚ)) * 60))

lemma string_data_eq {a b : String} (h : a.data = b.data) : a = b := by
  cases a; cases b; exact congrArg String.mk h

lemma formatHM_eq_specRender (H M : ℤ) (hH : 0 ≤ H) (hM : 0 ≤ M) :
    formatHM H M = specRender H M := by
  simp only [formatHM, specRender]
  split_ifs <;> first | rfl | omega

/-- C6: for every x ≥ 0, `formatDecimalHours` splits x into whole hours and a
rounded-to-nearest-minute remainder and renders exactly as the specification
describes, and the four concrete examples hold. -/
theorem formatDecimalHours_meets_spec :
    (∀ x : ℚ, 0 ≤ x → formatDecimalHours x = formatDecimalHoursSpec x)
    ∧ formatDecimalHours (5/2) = "2h30m"
    ∧ formatDecimalHours 2 = "2h"
    ∧ formatDecimalHours (1/2) = "30m"
    ∧ formatDecimalHours 0 = "0h" := by
  refine ⟨fun x hx => ?_, ?_, ?_, ?_, ?_⟩
  · unfold formatDecimalHours formatDecimalHoursSpec
    apply formatHM_eq_specRender
    · exact Int.floor_nonneg.mpr hx
    · have h1 : (⌊x⌋ : ℚ) ≤ x := Int.floor_le x
      apply Int.floor_nonneg.mpr
      nlinarith
  · have hH : ⌊(5/2 : ℚ)⌋ = 2 := by rw [Int.floor_eq_iff]; norm_num
    have hM : jsRound (((5:ℚ)/2 - ((2:ℤ) : ℚ)) * 60) = 30 := by
      unfold jsRound; rw [Int.floor_eq_iff]; norm_num
    rw [formatDecimalHours_eval hH hM]
    decide
  · have hH : ⌊(2 : ℚ)⌋ = 2 := by rw [Int.floor_eq_iff]; norm_num
    have hM : jsRound (((2:ℚ) - ((2:ℤ) : ℚ)) * 60) = 0 := by
      unfold jsRound; rw [Int.floor_eq_iff]; norm_num
    rw [formatDecimalHours_eval hH hM]
    decide
  · have hH : ⌊(1/2 : ℚ)⌋ = 0 := by rw [Int.floor_eq_iff]; norm_num
    have hM : jsRound (((1:ℚ)/2 - ((0:ℤ) : ℚ)) * 60) = 30 := by
      unfold jsRound; rw [Int.floor_eq_iff]; norm_num
    rw [formatDecimalHours_eval hH hM]
    decide
  · have hH : ⌊(0 : ℚ)⌋ = 0 := by rw [Int.floor_eq_iff]; norm_num
    have hM : jsRound (((0:ℚ) - ((0:ℤ) : ℚ)) * 60) = 0 := by
      unfold jsRound; rw [Int.floor_eq_iff]; norm_num
    rw [formatDecimalHours_eval hH hM]
    decide

/-- C6 witness: the general statement instantiated at x = 2.5. -/
theorem formatDecimalHours_meets_spec_witness :
    (0 : ℚ) ≤ 5/2 ∧ formatDecimalHours (5/2) = formatDecimalHoursSpec (5/2) :=
  ⟨by norm_num, formatDecimalHours_meets_spec.1 (5/2) (by norm_num)⟩

/-- C9: for the input 1.9999, whose fractional part rounds to 60 minutes,
`formatDecimalHours` renders a 60-minute component instead of carrying the
overflow into the hour count. -/
theorem formatDecimalHours_minute_overflow :
    formatDecimalHours (19999/10000) = "1h60m" := by
  have hH : ⌊(19999/10000 : ℚ)⌋ = 1 := by rw [Int.floor_eq_iff]; norm_num
  have hM : jsRound (((19999:ℚ)/10000 - ((1:ℤ) : ℚ)) * 60) = 60 := by
    unfold jsRound; rw [Int.floor_eq_iff]; norm_num
  rw [formatDecimalHours_eval hH hM]
  decide

/-- C5: quarter-hour rounding is idempotent. -/
theorem roundToNearestQuarterHour_idempotent (x : ℚ) :
    roundToNearestQuarterHour (roundToNearestQuarterHour x) =
      roundToNearestQuarterHour x := by
  rw [roundToNearestQuarterHour_eq_ceil, roundToNearestQuarterHour_eq_ceil]
  have h : (⌈x * 4⌉ : ℚ) / 4 * 4 = (⌈x * 4⌉ : ℚ) := by ring
  rw [h, Int.ceil_intCast]

/-! ### The strict `parseTimeInput` parser (`components/ui/time-input.tsx`) -/

/-- Maximal run of decimal digits at the head of a character list, together
with the remainder (the semantics of a greedy anchored `\d+`). -/
def digitSpan : List Char → List Char × List Char
  | [] => ([], [])
  | c :: cs =>
    if c.isDigit then
      let p := digitSpan cs
      (c :: p.1, p.2)
    else ([], c :: cs)

/-- JavaScript `parseInt` on a run of decimal digits. -/
def digitsToNat (ds : List Char) : ℕ :=
  ds.foldl (fun acc c => 10 * acc + (c.toNat - 48)) 0

/-- Lowercase every character and drop whitespace. -/
def cleanChars (l : List Char) : List Char :=
  (l.map Char.toLower).filter (fun c => !c.isWhitespace)

/-- `input.toLowerCase().replace(/\s/g, '')`, viewed as a character list. -/
def cleanInput (s : String) : List Char :=
  cleanChars s.data

/-- The anchored regex `^(?:(\d+)h(?:(\d+)m)?|(\d+)m)$` from `parseTimeInput`,
returning JavaScript's `(hours, minutes)` capture values (a missing capture
parses to 0, as in the source). -/
def matchTimeRegex (cs : List Char) : Option (ℕ × ℕ) :=
  let p := digitSpan cs
  if p.1.isEmpty then none
  else
    match p.2 with
    | [] => none
    | u :: rest2 =>
      if u = 'h' then
        if rest2.isEmpty then some (digitsToNat p.1, 0)
        else
          let q := digitSpan rest2
          if q.1.isEmpty then none
          else if q.2 = ['m'] then some (digitsToNat p.1, digitsToNat q.1)
          else none
      else if u = 'm' then
        if rest2.isEmpty then some (0, digitsToNat p.1)
        else none
      else none

/-- The `ParsedTime` result record of `parseTimeInput`. -/
structure ParsedTime where
  hours : ℕ
  minutes : ℕ
  isValid : Bool
  originalInput : String
  roundedInput : String
  decimalHours : ℚ
deriving Repr, DecidableEq

/-- Embeds `parseTimeInput`: clean the input, match the time regex, validate
the ranges (N ≤ 24, M ≤ 59, not both zero) and produce either the invalid
marker or the parsed result.  The JS guard `if (!input.trim()) return result`
is rendered as a check that the cleaned character list is empty, which holds
exactly when `input.trim()` is the empty string; the JS checks
`hours < 0 || minutes < 0` are vacuous for naturals. -/
def parseTimeInput (input : String) : ParsedTime :=
  let result : ParsedTime :=
    { hours := 0, minutes := 0, isValid := false, originalInput := input,
      roundedInput := "", decimalHours := 0 }
  if (cleanInput input).isEmpty then result
  else
    match matchTimeRegex (cleanInput input) with
    | none => result
    | some (h, m) =>
      if 24 < h ∨ 59 < m then result
      else if h = 0 ∧ m = 0 then result
      else
        { hours := h, minutes := m, isValid := true, originalInput := input,
          roundedInput := input, decimalHours := (h : ℚ) + (m : ℚ) / 60 }

/-- Every character in a list is a decimal digit. -/
def allDigits (l : List Char) : Prop := ∀ c ∈ l, c.isDigit = true

instance (l : List Char) : Decidable (allDigits l) := by
  unfold allDigits; infer_instance

/-- The specification's description of an accepted input: the cleaned string
has the shape `<N>h<M>m`, `<N>h` or `<M>m` with N, M read as non-negative
decimal integers. -/
def timeShape (cs : List Char) (N M : ℕ) : Prop :=
  (∃ a b : List Char, a ≠ [] ∧ b ≠ [] ∧ allDigits a ∧ allDigits b ∧
    cs = a ++ 'h' :: (b ++ ['m']) ∧ N = digitsToNat a ∧ M = digitsToNat b)
  ∨ (∃ a : List Char, a ≠ [] ∧ allDigits a ∧
    cs = a ++ ['h'] ∧ N = digitsToNat a ∧ M = 0)
  ∨ (∃ a : List Char, a ≠ [] ∧ allDigits a ∧
    cs = a ++ ['m'] ∧ N = 0 ∧ M = digitsToNat a)

lemma digitSpan_eq_append (cs : List Char) :
    (digitSpan cs).1 ++ (digitSpan cs).2 = cs := by
  induction cs with
  | nil => rfl
  | cons c cs ih =>
    by_cases hc : c.isDigit <;> simp [digitSpan, hc, ih]

lemma digitSpan_digits (cs : List Char) : allDigits (digitSpan cs).1 := by
  induction cs with
  | nil => intro c hc; simp [digitSpan] at hc
  | cons c cs ih =>
    intro d hd
    by_cases hc : c.isDigit
    · simp only [digitSpan, hc, if_true] at hd
      rcases List.mem_cons.mp hd with rfl | h
      · exact hc
      · exact ih d h
    · simp [digitSpan, hc] at hd

lemma digitSpan_digits_then (a : List Char) (u : Char) (t : List Char)
    (ha : allDigits a) (hu : u.isDigit = false) :
    digitSpan (a ++ u :: t) = (a, u :: t) := by
  induction a with
  | nil => simp [digitSpan, hu]
  | cons c a ih =>
    have hc : c.isDigit = true := ha c (List.mem_cons_self c a)
    have ha2 : allDigits a := fun d hd => ha d (List.mem_cons_of_mem c hd)
    simp [digitSpan, hc, ih ha2]

lemma matchTimeRegex_complete {cs : List Char} {N M : ℕ}
    (h : timeShape cs N M) : matchTimeRegex cs = some (N, M) := by
  have hh : ('h').isDigit = false := by decide
  have hm : ('m').isDigit = false := by decide
  rcases h with ⟨a, b, ha, hb, hda, hdb, hcs, hN, hM⟩ |
    ⟨a, ha, hda, hcs, hN, hM⟩ | ⟨a, ha, hda, hcs, hN, hM⟩
  · subst hcs hN hM
    rw [matchTimeRegex, digitSpan_digits_then a 'h' (b ++ ['m']) hda hh]
    have hbm : digitSpan (b ++ ['m']) = (b, ['m']) :=
      digitSpan_digits_then b 'm' [] hdb hm
    simp [ha, hb, hbm, List.isEmpty_iff]
  · subst hcs hN hM
    have h1 : a ++ ['h'] = a ++ 'h' :: [] := rfl
    rw [matchTimeRegex, h1, digitSpan_digits_then a 'h' [] hda hh]
    simp [ha, List.isEmpty_iff]
  · subst hcs hN hM
    have h1 : a ++ ['m'] = a ++ 'm' :: [] := rfl
    rw [matchTimeRegex, h1, digitSpan_digits_then a 'm' [] hda hm]
    simp [ha, List.isEmpty_iff]

lemma matchTimeRegex_sound {cs : List Char} {N M : ℕ}
    (h : matchTimeRegex cs = some (N, M)) : timeShape cs N M := by
  have hspan := digitSpan_eq_append cs
  have hdig := digitSpan_digits cs
  rcases hds : digitSpan cs with ⟨ds, rest⟩
  rw [hds] at hspan hdig
  rw [matchTimeRegex, hds] at h
  simp only at h
  by_cases h1 : ds.isEmpty
  · rw [if_pos h1] at h; cases h
  · rw [if_neg h1] at h
    have hdsne : ds ≠ [] := fun hnil => h1 (by rw [hnil]; rfl)
    rcases rest with _ | ⟨u, rest2⟩
    · cases h
    · simp only at h hdig hspan
      by_cases hu : u = 'h'
      · subst hu
        rw [if_pos rfl] at h
        by_cases h2 : rest2.isEmpty
        · rw [if_pos h2] at h
          have hr : rest2 = [] := List.isEmpty_iff.mp h2
          subst hr
          cases Option.some.inj h
          right; left
          exact ⟨ds, hdsne, hdig, hspan.symm, rfl, rfl⟩
        · rw [if_neg h2] at h
          have hq_app := digitSpan_eq_append rest2
          have hq_dig := digitSpan_digits rest2
          rcases hq : digitSpan rest2 with ⟨qs, qrest⟩
          rw [hq] at hq_app hq_dig h
          simp only at h
          by_cases h3 : qs.isEmpty
          · rw [if_pos h3] at h; cases h
          · rw [if_neg h3] at h
            by_cases h4 : qrest = ['m']
            · rw [if_pos h4] at h
              cases Option.some.inj h
              left
              refine ⟨ds, qs, hdsne, fun hnil => h3 (by rw [hnil]; rfl),
                hdig, hq_dig, ?_, rfl, rfl⟩
              rw [← hspan, ← hq_app, h4]
            · rw [if_neg h4] at h; cases h
      · rw [if_neg hu] at h
        by_cases hm : u = 'm'
        · subst hm
          rw [if_pos rfl] at h
          by_cases h2 : rest2.isEmpty
          · rw [if_pos h2] at h
            have hr : rest2 = [] := List.isEmpty_iff.mp h2
            subst hr
            cases Option.some.inj h
            right; right
            exact ⟨ds, hdsne, hdig, hspan.symm, rfl, rfl⟩
          · rw [if_neg h2] at h; cases h
        · rw [if_neg hm] at h; cases h

/-- The invalid marker returned by `parseTimeInput` for input `s`. -/
def invalidParsed (s : String) : ParsedTime :=
  { hours := 0, minutes := 0, isValid := false, originalInput := s,
    roundedInput := "", decimalHours := 0 }

lemma parseTimeInput_of_match {s : String} {N M : ℕ}
    (hm : matchTimeRegex (cleanInput s) = some (N, M))
    (h24 : N ≤ 24) (h59 : M ≤ 59) (h0 : ¬(N = 0 ∧ M = 0)) :
    parseTimeInput s =
      { hours := N, minutes := M, isValid := true, originalInput := s,
        roundedInput := s, decimalHours := (N : ℚ) + (M : ℚ) / 60 } := by
  have hne : (cleanInput s).isEmpty = false := by
    rcases hcs : cleanInput s with _ | ⟨c, cs⟩
    · rw [hcs] at hm; cases hm
    · rfl
  rw [parseTimeInput]
  simp only [hne, Bool.false_eq_true, if_false, hm]
  rw [if_neg (by omega), if_neg h0]

lemma parseTimeInput_eq_invalid {s : String}
    (h : ∀ N M : ℕ, matchTimeRegex (cleanInput s) = some (N, M) →
      (24 < N ∨ 59 < M) ∨ (N = 0 ∧ M = 0)) :
    parseTimeInput s = invalidParsed s := by
  rw [parseTimeInput, invalidParsed]
  by_cases hne : (cleanInput s).isEmpty
  · rw [if_pos hne]
  · rw [if_neg hne]
    rcases hm : matchTimeRegex (cleanInput s) with _ | ⟨N, M⟩
    · rfl
    · simp only
      rcases h N M hm with hb | hz
      · rw [if_pos hb]
      · by_cases hb : 24 < N ∨ 59 < M
        · rw [if_pos hb]
        · rw [if_neg hb, if_pos hz]

/-- C2: `parseTimeInput s` is valid with `decimalHours = N + M/60` (echoing
the original string as `roundedInput`) exactly when the cleaned input has the
shape `<N>h<M>m`, `<N>h` or `<M>m` with N ≤ 24, M ≤ 59 and not both zero;
for every other string it returns the invalid marker with no partial
values. -/
theorem parseTimeInput_meets_spec (s : String) :
    (∀ N M : ℕ, timeShape (cleanInput s) N M →
      N ≤ 24 → M ≤ 59 → ¬(N = 0 ∧ M = 0) →
      parseTimeInput s =
        { hours := N, minutes := M, isValid := true, originalInput := s,
          roundedInput := s, decimalHours := (N : ℚ) + (M : ℚ) / 60 })
    ∧ ((¬ ∃ N M : ℕ, timeShape (cleanInput s) N M ∧
        N ≤ 24 ∧ M ≤ 59 ∧ ¬(N = 0 ∧ M = 0)) →
      parseTimeInput s = invalidParsed s) := by
  constructor
  · intro N M hshape h24 h59 h0
    exact parseTimeInput_of_match (matchTimeRegex_complete hshape) h24 h59 h0
  · intro hno
    apply parseTimeInput_eq_invalid
    intro N M hm
    by_contra hcon
    exact hno ⟨N, M, matchTimeRegex_sound hm, by omega, by omega, by omega⟩

/-- C2 witness: the valid branch of the general statement instantiated at
"2h30m". -/
theorem parseTimeInput_meets_spec_witness :
    parseTimeInput "2h30m" =
      { hours := 2, minutes := 30, isValid := true, originalInput := "2h30m",
        roundedInput := "2h30m", decimalHours := (2 : ℚ) + (30 : ℚ) / 60 } :=
  (parseTimeInput_meets_spec "2h30m").1 2 30
    (Or.inl ⟨['2'], ['3', '0'], by decide, by decide, by decide, by decide,
      by decide, by decide, by decide⟩)
    (by decide) (by decide) (by decide)

/-! ### The round-trip through rounding and formatting (C3) -/

lemma cleanChars_append (l1 l2 : List Char) :
    cleanChars (l1 ++ l2) = cleanChars l1 ++ cleanChars l2 := by
  simp [cleanChars]

lemma cleanChars_hcons (l : List Char) :
    cleanChars ('h' :: l) = 'h' :: cleanChars l := by
  simp [cleanChars, show Char.toLower 'h' = 'h' from rfl,
    show ('h').isWhitespace = false from rfl]

/-- Decimal representations of naturals below 100: non-empty, all digits,
read back by `digitsToNat`, and untouched by lowercasing / whitespace
stripping. -/
lemma repr_facts : ∀ n : ℕ, n < 100 →
    (Nat.repr n).data ≠ [] ∧ allDigits (Nat.repr n).data ∧
    digitsToNat (Nat.repr n).data = n ∧
    cleanChars (Nat.repr n).data = (Nat.repr n).data := by decide

lemma parseTimeInput_valid_bounds (s : String)
    (hv : (parseTimeInput s).isValid = true) :
    ∃ N M : ℕ, N ≤ 24 ∧ M ≤ 59 ∧ ¬(N = 0 ∧ M = 0) ∧
      (parseTimeInput s).decimalHours = (N : ℚ) + (M : ℚ) / 60 := by
  by_cases hc : ∃ N M : ℕ, matchTimeRegex (cleanInput s) = some (N, M) ∧
      N ≤ 24 ∧ M ≤ 59 ∧ ¬(N = 0 ∧ M = 0)
  · obtain ⟨N, M, hm, h24, h59, h0⟩ := hc
    refine ⟨N, M, h24, h59, h0, ?_⟩
    rw [parseTimeInput_of_match hm h24 h59 h0]
  · exfalso
    have hinv : parseTimeInput s = invalidParsed s := by
      apply parseTimeInput_eq_invalid
      intro N M hm
      by_contra hbb
      exact hc ⟨N, M, hm, by omega, by omega, by omega⟩
    rw [hinv] at hv
    exact absurd hv (by simp [invalidParsed])

/-- Core of the round-trip: formatting `q` whole hours plus `r` quarters and
parsing the result back recovers the same value. -/
lemma parse_format_quarter_aux (q r : ℕ) (hqr : ¬(q = 0 ∧ r = 0))
    (hq24 : q ≤ 24) (hr4 : r < 4) :
    (parseTimeInput (formatDecimalHours ((q : ℚ) + (r : ℚ) / 4))).isValid = true ∧
    (parseTimeInput (formatDecimalHours ((q : ℚ) + (r : ℚ) / 4))).decimalHours =
      (q : ℚ) + (r : ℚ) / 4 := by
  have hr0 : (0 : ℚ) ≤ (r : ℚ) := Nat.cast_nonneg r
  have hr4q : (r : ℚ) < 4 := by exact_mod_cast hr4
  have hfloor : ⌊(q : ℚ) + (r : ℚ) / 4⌋ = ((q : ℕ) : ℤ) := by
    rw [Int.floor_eq_iff]
    constructor
    · push_cast
      linarith
    · push_cast
      linarith
  have hmins : jsRound ((((q : ℚ) + (r : ℚ) / 4) - (((q : ℕ) : ℤ) : ℚ)) * 60) =
      ((r * 15 : ℕ) : ℤ) := by
    unfold jsRound
    rw [Int.floor_eq_iff]
    constructor
    · push_cast
      linarith
    · push_cast
      linarith
  rw [formatDecimalHours_eval hfloor hmins]
  have hempty : ("" : String).data = [] := rfl
  have hch : cleanChars ['h'] = ['h'] := by decide
  have hcm : cleanChars ['m'] = ['m'] := by decide
  rcases Nat.eq_zero_or_pos r with hre | hrpos
  · -- minutes are zero: the rendering is "<q>h"
    have hqpos : 1 ≤ q := by omega
    obtain ⟨hne_, hdig_, hval_, hclean_⟩ := repr_facts q (by omega)
    have hfmt : formatHM ((q : ℕ) : ℤ) ((r * 15 : ℕ) : ℤ) =
        "" ++ Nat.repr q ++ "h" := by
      simp only [formatHM]
      rw [if_neg (show ¬(((q : ℕ) : ℤ) = 0 ∧ ((r * 15 : ℕ) : ℤ) = 0) from
            by omega),
        if_neg (show ¬((0 : ℤ) < ((r * 15 : ℕ) : ℤ)) from by omega),
        if_pos (show (0 : ℤ) < ((q : ℕ) : ℤ) from by omega)]
      rfl
    rw [hfmt]
    have hci : cleanInput ("" ++ Nat.repr q ++ "h") =
        (Nat.repr q).data ++ ['h'] := by
      simp [cleanInput, String.data_append, hempty, cleanChars_append,
        hclean_, hch]
    have hmatch : matchTimeRegex (cleanInput ("" ++ Nat.repr q ++ "h")) =
        some (q, 0) :=
      matchTimeRegex_complete (Or.inr (Or.inl
        ⟨(Nat.repr q).data, hne_, hdig_, by rw [hci], hval_.symm, rfl⟩))
    have hparse := parseTimeInput_of_match hmatch (by omega) (by omega)
      (by omega)
    rw [hparse]
    refine ⟨rfl, ?_⟩
    show ((q : ℕ) : ℚ) + ((0 : ℕ) : ℚ) / 60 = (q : ℚ) + (r : ℚ) / 4
    have : ((r : ℕ) : ℚ) = 0 := by exact_mod_cast hre
    rw [this]
    push_cast
    ring
  · rcases Nat.eq_zero_or_pos q with hqe | hqpos
    · -- hours are zero: the rendering is "<m>m"
      obtain ⟨hne_, hdig_, hval_, hclean_⟩ := repr_facts (r * 15) (by omega)
      have hfmt : formatHM ((q : ℕ) : ℤ) ((r * 15 : ℕ) : ℤ) =
          "" ++ Nat.repr (r * 15) ++ "m" := by
        simp only [formatHM]
        rw [if_neg (show ¬(((q : ℕ) : ℤ) = 0 ∧ ((r * 15 : ℕ) : ℤ) = 0) from
              by omega),
          if_pos (show (0 : ℤ) < ((r * 15 : ℕ) : ℤ) from by omega),
          if_neg (show ¬((0 : ℤ) < ((q : ℕ) : ℤ)) from by omega)]
        rfl
      rw [hfmt]
      have hci : cleanInput ("" ++ Nat.repr (r * 15) ++ "m") =
          (Nat.repr (r * 15)).data ++ ['m'] := by
        simp [cleanInput, String.data_append, hempty, cleanChars_append,
          hclean_, hcm]
      have hmatch : matchTimeRegex
          (cleanInput ("" ++ Nat.repr (r * 15) ++ "m")) =
          some (0, r * 15) :=
        matchTimeRegex_complete (Or.inr (Or.inr
          ⟨(Nat.repr (r * 15)).data, hne_, hdig_, by rw [hci], rfl,
            hval_.symm⟩))
      have hparse := parseTimeInput_of_match hmatch (by omega) (by omega)
        (by omega)
      rw [hparse]
      refine ⟨rfl, ?_⟩
      show ((0 : ℕ) : ℚ) + ((r * 15 : ℕ) : ℚ) / 60 = (q : ℚ) + (r : ℚ) / 4
      have : ((q : ℕ) : ℚ) = 0 := by exact_mod_cast hqe
      rw [this]
      push_cast
      ring
    · -- both parts present: the rendering is "<q>h<m>m"
      obtain ⟨hne1, hdig1, hval1, hclean1⟩ := repr_facts q (by omega)
      obtain ⟨hne2, hdig2, hval2, hclean2⟩ := repr_facts (r * 15) (by omega)
      have hfmt : formatHM ((q : ℕ) : ℤ) ((r * 15 : ℕ) : ℤ) =
          ("" ++ Nat.repr q ++ "h") ++ Nat.repr (r * 15) ++ "m" := by
        simp only [formatHM]
        rw [if_neg (show ¬(((q : ℕ) : ℤ) = 0 ∧ ((r * 15 : ℕ) : ℤ) = 0) from
              by omega),
          if_pos (show (0 : ℤ) < ((r * 15 : ℕ) : ℤ) from by omega),
          if_pos (show (0 : ℤ) < ((q : ℕ) : ℤ) from by omega)]
        rfl
      rw [hfmt]
      have hci : cleanInput (("" ++ Nat.repr q ++ "h") ++
          Nat.repr (r * 15) ++ "m") =
          (Nat.repr q).data ++ 'h' :: ((Nat.repr (r * 15)).data ++ ['m']) := by
        simp [cleanInput, String.data_append, hempty, cleanChars_append,
          cleanChars_hcons, hclean1, hclean2, hch, hcm]
      have hmatch : matchTimeRegex (cleanInput (("" ++ Nat.repr q ++ "h")
          ++ Nat.repr (r * 15) ++ "m")) = some (q, r * 15) :=
        matchTimeRegex_complete (Or.inl
          ⟨(Nat.repr q).data, (Nat.repr (r * 15)).data, hne1, hne2,
            hdig1, hdig2, by rw [hci], hval1.symm, hval2.symm⟩)
      have hparse := parseTimeInput_of_match hmatch (by omega) (by omega)
        (by omega)
      rw [hparse]
      refine ⟨rfl, ?_⟩
      show ((q : ℕ) : ℚ) + ((r * 15 : ℕ) : ℚ) / 60 = (q : ℚ) + (r : ℚ) / 4
      push_cast
      ring

/-- Parsing the formatted rendering of `k` quarter-hours (0 < k ≤ 99)
succeeds and recovers exactly `k/4` decimal hours. -/
lemma parse_format_quarter (k : ℕ) (hk1 : 1 ≤ k) (hk2 : k ≤ 99) :
    (parseTimeInput (formatDecimalHours ((k : ℚ) / 4))).isValid = true ∧
    (parseTimeInput (formatDecimalHours ((k : ℚ) / 4))).decimalHours =
      (k : ℚ) / 4 := by
  have hks : k = 4 * (k / 4) + k % 4 := by omega
  have hcast : (k : ℚ) = 4 * ((k / 4 : ℕ) : ℚ) + ((k % 4 : ℕ) : ℚ) := by
    exact_mod_cast congrArg (Nat.cast : ℕ → ℚ) hks
  have hx : (k : ℚ) / 4 = ((k / 4 : ℕ) : ℚ) + ((k % 4 : ℕ) : ℚ) / 4 := by
    linarith
  rw [hx]
  exact parse_format_quarter_aux (k / 4) (k % 4) (by omega) (by omega)
    (by omega)

/-- C3 counterexample: "24h59m" is accepted by the parser, but rounding its
24h59m up to the quarter hour gives 25h, whose rendering "25h" the parser
rejects (25 > 24) — so the claimed round-trip fails. -/
theorem roundtrip_fails_at_24h59m :
    (parseTimeInput "24h59m").isValid = true ∧
    (parseTimeInput (formatDecimalHours (roundToNearestQuarterHour
      (parseTimeInput "24h59m").decimalHours))).isValid = false ∧
    (parseTimeInput (formatDecimalHours (roundToNearestQuarterHour
      (parseTimeInput "24h59m").decimalHours))).decimalHours ≠
      roundToNearestQuarterHour (parseTimeInput "24h59m").decimalHours := by
  have h1 : parseTimeInput "24h59m" =
      { hours := 24, minutes := 59, isValid := true,
        originalInput := "24h59m", roundedInput := "24h59m",
        decimalHours := (24 : ℚ) + (59 : ℚ) / 60 } :=
    parseTimeInput_of_match (by decide) (by decide) (by decide) (by decide)
  have hr : roundToNearestQuarterHour ((24 : ℚ) + (59 : ℚ) / 60) = 25 := by
    rw [roundToNearestQuarterHour_eq_ceil]
    have hc : (⌈((24 : ℚ) + (59 : ℚ) / 60) * 4⌉ : ℤ) = 100 := by
      rw [Int.ceil_eq_iff]
      norm_num
    rw [hc]
    norm_num
  have hf : formatDecimalHours (25 : ℚ) = "25h" := by
    have hH : ⌊(25 : ℚ)⌋ = 25 := by rw [Int.floor_eq_iff]; norm_num
    have hM : jsRound (((25 : ℚ) - ((25 : ℤ) : ℚ)) * 60) = 0 := by
      unfold jsRound; rw [Int.floor_eq_iff]; norm_num
    rw [formatDecimalHours_eval hH hM]
    decide
  have hp : parseTimeInput "25h" = invalidParsed "25h" := by
    apply parseTimeInput_eq_invalid
    intro N M hm
    rw [show matchTimeRegex (cleanInput "25h") = some (25, 0) from by decide]
      at hm
    cases Option.some.inj hm
    left; left; omega
  refine ⟨by rw [h1], ?_, ?_⟩
  · rw [h1]
    simp only
    rw [hr, hf, hp]
    rfl
  · rw [h1]
    simp only
    rw [hr, hf, hp]
    simp [invalidParsed]

/-- C3 (amended): for every accepted input whose quarter-hour-rounded value
does not exceed 24.75 hours (i.e. rounding does not reach 25h), formatting
the rounded value and parsing it back yields a valid result equal to the
rounded value.  (Inputs above 24.75h, e.g. "24h59m", round to 25h, whose
rendering the parser rejects.) -/
theorem roundtrip_of_rounded_le (s : String)
    (hv : (parseTimeInput s).isValid = true)
    (hle : roundToNearestQuarterHour (parseTimeInput s).decimalHours ≤ 99/4) :
    (parseTimeInput (formatDecimalHours (roundToNearestQuarterHour
      (parseTimeInput s).decimalHours))).isValid = true ∧
    (parseTimeInput (formatDecimalHours (roundToNearestQuarterHour
      (parseTimeInput s).decimalHours))).decimalHours =
      roundToNearestQuarterHour (parseTimeInput s).decimalHours := by
  obtain ⟨N, M, h24, h59, h0, hdec⟩ := parseTimeInput_valid_bounds s hv
  have hxpos : 0 < (parseTimeInput s).decimalHours := by
    rw [hdec]
    have hN0 : (0 : ℚ) ≤ (N : ℚ) := Nat.cast_nonneg N
    have hM0 : (0 : ℚ) ≤ (M : ℚ) := Nat.cast_nonneg M
    rcases Nat.eq_zero_or_pos N with hN | hN
    · have hM1 : (1 : ℚ) ≤ (M : ℚ) := by exact_mod_cast by omega
      linarith
    · have hN1 : (1 : ℚ) ≤ (N : ℚ) := by exact_mod_cast hN
      linarith
  have hre := roundToNearestQuarterHour_eq_ceil (parseTimeInput s).decimalHours
  have hK1 : 0 < ⌈(parseTimeInput s).decimalHours * 4⌉ :=
    Int.ceil_pos.mpr (by linarith)
  have hK99 : ⌈(parseTimeInput s).decimalHours * 4⌉ ≤ 99 := by
    have h1 : (⌈(parseTimeInput s).decimalHours * 4⌉ : ℚ) / 4 ≤ 99/4 := by
      rw [← hre]; exact hle
    have h2 : (⌈(parseTimeInput s).decimalHours * 4⌉ : ℚ) ≤ 99 := by linarith
    exact_mod_cast h2
  have hk : (((⌈(parseTimeInput s).decimalHours * 4⌉).toNat : ℕ) : ℚ) =
      ((⌈(parseTimeInput s).decimalHours * 4⌉ : ℤ) : ℚ) := by
    exact_mod_cast Int.toNat_of_nonneg (by omega)
  have hxr : roundToNearestQuarterHour (parseTimeInput s).decimalHours =
      (((⌈(parseTimeInput s).decimalHours * 4⌉).toNat : ℕ) : ℚ) / 4 := by
    rw [hre, hk]
  rw [hxr]
  exact parse_format_quarter (⌈(parseTimeInput s).decimalHours * 4⌉).toNat
    (by omega) (by omega)

/-- C3 witness: the amended round-trip instantiated at "2h30m". -/
theorem roundtrip_of_rounded_le_witness :
    (parseTimeInput (formatDecimalHours (roundToNearestQuarterHour
      (parseTimeInput "2h30m").decimalHours))).isValid = true ∧
    (parseTimeInput (formatDecimalHours (roundToNearestQuarterHour
      (parseTimeInput "2h30m").decimalHours))).decimalHours =
      roundToNearestQuarterHour (parseTimeInput "2h30m").decimalHours := by
  have h1 : parseTimeInput "2h30m" =
      { hours := 2, minutes := 30, isValid := true, originalInput := "2h30m",
        roundedInput := "2h30m", decimalHours := (2 : ℚ) + (30 : ℚ) / 60 } :=
    parseTimeInput_of_match (by decide) (by decide) (by decide) (by decide)
  apply roundtrip_of_rounded_le
  · rw [h1]
  · rw [h1]
    simp only
    rw [roundToNearestQuarterHour_eq_ceil]
    have hc : (⌈((2 : ℚ) + (30 : ℚ) / 60) * 4⌉ : ℤ) = 10 := by
      rw [Int.ceil_eq_iff]
      norm_num
    rw [hc]
    norm_num

/-! ### The rule-list form validator (`services/form-validation.service.ts`) -/

/-- The `'jira' | 'category'` discriminator of a form submission. -/
inductive EntryKind
  | jira
  | category
deriving DecidableEq, Repr

/-- The category object attached to a submission; only its optional `type`
string is ever inspected by the rules. -/
structure FormCategory where
  type : Option String
deriving DecidableEq, Repr

/-- The `TimeEntryFormData` record.  `selectedJiraTask` carries no inspected
payload (the rules only test its presence), so it is modelled as
`Option Unit`; a missing `date` is the empty string (the falsy case of the JS
string field). -/
structure TimeEntryFormData where
  type : EntryKind
  selectedJiraTask : Option Unit
  selectedCategory : Option FormCategory
  decimalHours : ℚ
  date : String
  endDate : Option String

/-- The `ValidationResult` record. -/
structure ValidationResult where
  isValid : Bool
  errors : List String
deriving DecidableEq, Repr

/-- `RequiredJiraTaskRule`. -/
def requiredJiraTaskRule (data : TimeEntryFormData) : ValidationResult :=
  if data.type = EntryKind.jira ∧ data.selectedJiraTask = none then
    { isValid := false, errors := ["Please select a JIRA task"] }
  else { isValid := true, errors := [] }

/-- `RequiredCategoryRule`. -/
def requiredCategoryRule (data : TimeEntryFormData) : ValidationResult :=
  if data.type = EntryKind.category ∧ data.selectedCategory = none then
    { isValid := false, errors := ["Please select a category"] }
  else { isValid := true, errors := [] }

/-- `data.selectedCategory?.type === 'day'` (undefined compares unequal). -/
def isDayBasedCategory (data : TimeEntryFormData) : Bool :=
  match data.selectedCategory with
  | some c => c.type == some "day"
  | none => false

/-- `TimeBasedValidationRule`. -/
def timeBasedValidationRule (data : TimeEntryFormData) : ValidationResult :=
  if (data.type = EntryKind.jira ∨ isDayBasedCategory data = false) ∧
      data.decimalHours ≤ 0 then
    { isValid := false, errors := ["Please enter valid time"] }
  else { isValid := true, errors := [] }

/-- `DateValidationRule`. -/
def dateValidationRule (data : TimeEntryFormData) : ValidationResult :=
  if data.type = EntryKind.category ∧ isDayBasedCategory data = true ∧
      data.date = "" then
    { isValid := false, errors := ["Please select a date"] }
  else { isValid := true, errors := [] }

/-- The default rule list installed by the `TimeEntryFormValidator`
constructor. -/
def timeEntryFormRules : List (TimeEntryFormData → ValidationResult) :=
  [requiredJiraTaskRule, requiredCategoryRule, timeBasedValidationRule,
    dateValidationRule]

/-- One iteration of `TimeEntryFormValidator.validate`'s loop: a failing rule
clears the flag and pushes its errors. -/
def validateStep (data : TimeEntryFormData) (acc : Bool × List String)
    (rule : TimeEntryFormData → ValidationResult) : Bool × List String :=
  let result := rule data
  if result.isValid then acc else (false, acc.2 ++ result.errors)

/-- `TimeEntryFormValidator.validate`: fold the rule list, starting from
`isValid = true` and no errors. -/
def validateTimeEntryForm (data : TimeEntryFormData) : ValidationResult :=
  let folded := timeEntryFormRules.foldl (validateStep data)
    (true, ([] : List String))
  { isValid := folded.1, errors := folded.2 }

lemma validate_foldl_spec (data : TimeEntryFormData) :
    ∀ (rules : List (TimeEntryFormData → ValidationResult)) (b : Bool)
      (es : List String),
    (rules.foldl (validateStep data) (b, es)).1 =
      (b && rules.all fun r => (r data).isValid) ∧
    (rules.foldl (validateStep data) (b, es)).2 =
      es ++ (rules.map fun r =>
        if (r data).isValid then [] else (r data).errors).join := by
  intro rules
  induction rules with
  | nil => intro b es; simp
  | cons r rs ih =>
    intro b es
    rcases hr : (r data).isValid
    · simp only [List.foldl_cons, validateStep, hr, Bool.false_eq_true,
        if_false, List.all_cons, Bool.and_eq_true]
      rw [(ih false (es ++ (r data).errors)).1,
        (ih false (es ++ (r data).errors)).2]
      simp [hr, List.append_assoc]
    · simp only [List.foldl_cons, validateStep, hr, if_true, List.all_cons]
      rw [(ih b es).1, (ih b es).2]
      simp [hr]

lemma validate_isValid_eq_all (data : TimeEntryFormData) :
    (validateTimeEntryForm data).isValid =
      timeEntryFormRules.all fun r => (r data).isValid := by
  have h := (validate_foldl_spec data timeEntryFormRules true []).1
  simpa [validateTimeEntryForm] using h

lemma validate_errors_eq_join (data : TimeEntryFormData) :
    (validateTimeEntryForm data).errors =
      (timeEntryFormRules.map fun r =>
        if (r data).isValid then [] else (r data).errors).join := by
  have h := (validate_foldl_spec data timeEntryFormRules true []).2
  simpa [validateTimeEntryForm] using h

/-- Each of the four installed rules reports no errors when it passes. -/
lemma rule_valid_no_errors :
    ∀ r ∈ timeEntryFormRules, ∀ data : TimeEntryFormData,
      (r data).isValid = true → (r data).errors = [] := by
  intro r hr data
  simp only [timeEntryFormRules, List.mem_cons, List.mem_singleton,
    List.not_mem_nil, or_false] at hr
  rcases hr with rfl | rfl | rfl | rfl <;>
    · intro hv
      first
        | (unfold requiredJiraTaskRule at hv ⊢; split_ifs at hv ⊢ <;> simp_all)
        | (unfold requiredCategoryRule at hv ⊢; split_ifs at hv ⊢ <;> simp_all)
        | (unfold timeBasedValidationRule at hv ⊢; split_ifs at hv ⊢ <;>
            simp_all)
        | (unfold dateValidationRule at hv ⊢; split_ifs at hv ⊢ <;> simp_all)

lemma join_map_eq_nil {α β : Type} (l : List α) (f : α → List β)
    (h : ∀ a ∈ l, f a = []) : (l.map f).join = [] := by
  induction l with
  | nil => rfl
  | cons a l ih =>
    simp only [List.map_cons, List.join_cons, h a (List.mem_cons_self a l),
      List.nil_append]
    exact ih fun b hb => h b (List.mem_cons_of_mem a hb)

/-- C8: the aggregate result is valid iff every installed rule passes, its
error list is the concatenation of the individual rules' failure messages,
a jira submission with no task (and otherwise-passing fields) yields exactly
the missing-task error, a category submission with a day-based category and a
missing date yields exactly the missing-date error, and a submission passing
all rules yields no errors. -/
theorem validator_aggregation_spec :
    (∀ data : TimeEntryFormData,
      ((validateTimeEntryForm data).isValid = true ↔
        ∀ r ∈ timeEntryFormRules, (r data).isValid = true))
    ∧ (∀ data : TimeEntryFormData,
      (validateTimeEntryForm data).errors =
        (timeEntryFormRules.map fun r => (r data).errors).join)
    ∧ (∀ data : TimeEntryFormData, data.type = EntryKind.jira →
        data.selectedJiraTask = none → 0 < data.decimalHours →
        validateTimeEntryForm data =
          { isValid := false, errors := ["Please select a JIRA task"] })
    ∧ (∀ (data : TimeEntryFormData) (c : FormCategory),
        data.type = EntryKind.category → data.selectedCategory = some c →
        c.type = some "day" → data.date = "" →
        validateTimeEntryForm data =
          { isValid := false, errors := ["Please select a date"] })
    ∧ (∀ data : TimeEntryFormData,
        (∀ r ∈ timeEntryFormRules, (r data).isValid = true) →
        validateTimeEntryForm data = { isValid := true, errors := [] }) := by
  have herr : ∀ data : TimeEntryFormData,
      (validateTimeEntryForm data).errors =
        (timeEntryFormRules.map fun r => (r data).errors).join := by
    intro data
    rw [validate_errors_eq_join]
    congr 1
    apply List.map_congr_left
    intro r hr
    rcases hv : (r data).isValid
    · simp
    · simp [rule_valid_no_errors r hr data hv]
  refine ⟨fun data => ?_, herr, fun data h1 h2 h3 => ?_, fun data c h1 h2 h3 h4 => ?_,
    fun data hall => ?_⟩
  · rw [validate_isValid_eq_all, List.all_eq_true]
  · have e1 : requiredJiraTaskRule data =
        { isValid := false, errors := ["Please select a JIRA task"] } := by
      unfold requiredJiraTaskRule
      rw [if_pos ⟨h1, h2⟩]
    have e2 : requiredCategoryRule data = { isValid := true, errors := [] } := by
      unfold requiredCategoryRule
      rw [if_neg]
      rintro ⟨hc, -⟩
      rw [h1] at hc
      cases hc
    have e3 : timeBasedValidationRule data =
        { isValid := true, errors := [] } := by
      unfold timeBasedValidationRule
      rw [if_neg]
      rintro ⟨-, hle⟩
      linarith
    have e4 : dateValidationRule data = { isValid := true, errors := [] } := by
      unfold dateValidationRule
      rw [if_neg]
      rintro ⟨hc, -⟩
      rw [h1] at hc
      cases hc
    simp [validateTimeEntryForm, timeEntryFormRules, validateStep, e1, e2, e3, e4]
  · have hday : isDayBasedCategory data = true := by
      unfold isDayBasedCategory
      rw [h2]
      simp only
      rw [h3]
      rfl
    have e1 : requiredJiraTaskRule data = { isValid := true, errors := [] } := by
      unfold requiredJiraTaskRule
      rw [if_neg]
      rintro ⟨hc, -⟩
      rw [h1] at hc
      cases hc
    have e2 : requiredCategoryRule data = { isValid := true, errors := [] } := by
      unfold requiredCategoryRule
      rw [if_neg]
      rintro ⟨-, hc⟩
      rw [h2] at hc
      cases hc
    have e3 : timeBasedValidationRule data =
        { isValid := true, errors := [] } := by
      unfold timeBasedValidationRule
      rw [if_neg]
      rintro ⟨hor, -⟩
      rcases hor with hc | hc
      · rw [h1] at hc; cases hc
      · rw [hday] at hc; cases hc
    have e4 : dateValidationRule data =
        { isValid := false, errors := ["Please select a date"] } := by
      unfold dateValidationRule
      rw [if_pos ⟨h1, hday, h4⟩]
    simp [validateTimeEntryForm, timeEntryFormRules, validateStep, e1, e2, e3, e4]
  · have h1 : (validateTimeEntryForm data).isValid = true := by
      rw [validate_isValid_eq_all, List.all_eq_true]
      exact hall
    have h2 : (validateTimeEntryForm data).errors = [] := by
      rw [herr data]
      exact join_map_eq_nil _ _ fun r hr =>
        rule_valid_no_errors r hr data (hall r hr)
    calc validateTimeEntryForm data
        = { isValid := (validateTimeEntryForm data).isValid,
            errors := (validateTimeEntryForm data).errors } := rfl
      _ = { isValid := true, errors := [] } := by rw [h1, h2]

/-- C8 witness: the missing-task case instantiated at a concrete jira
submission with no selected task. -/
theorem validator_aggregation_spec_witness :
    validateTimeEntryForm
      { type := EntryKind.jira, selectedJiraTask := none,
        selectedCategory := none, decimalHours := 2, date := "2024-01-15",
        endDate := none } =
      { isValid := false, errors := ["Please select a JIRA task"] } :=
  validator_aggregation_spec.2.2.1 _ rfl rfl (by norm_num)

/-- A submission that declares type `jira`, selects a task AND also carries a
selected category. -/
def bothSelectedSubmission : TimeEntryFormData :=
  { type := EntryKind.jira, selectedJiraTask := some (),
    selectedCategory := some { type := some "time" },
    decimalHours := 2, date := "2024-01-15", endDate := none }

/-- C7 counterexample: a submission with BOTH a JIRA task and a category
selected passes the composed validator, so the validator does not enforce the
claimed "never both" half of the xor. -/
theorem validator_accepts_both_selected :
    bothSelectedSubmission.selectedJiraTask.isSome = true ∧
    bothSelectedSubmission.selectedCategory.isSome = true ∧
    (validateTimeEntryForm bothSelectedSubmission).isValid = true := by
  refine ⟨rfl, rfl, ?_⟩
  have e1 : requiredJiraTaskRule bothSelectedSubmission =
      { isValid := true, errors := [] } := by
    unfold requiredJiraTaskRule bothSelectedSubmission
    rw [if_neg]
    rintro ⟨-, hc⟩
    cases hc
  have e2 : requiredCategoryRule bothSelectedSubmission =
      { isValid := true, errors := [] } := by
    unfold requiredCategoryRule bothSelectedSubmission
    rw [if_neg]
    rintro ⟨hc, -⟩
    cases hc
  have e3 : timeBasedValidationRule bothSelectedSubmission =
      { isValid := true, errors := [] } := by
    unfold timeBasedValidationRule
    rw [if_neg]
    rintro ⟨-, hle⟩
    have : ¬((2 : ℚ) ≤ 0) := by norm_num
    exact this hle
  have e4 : dateValidationRule bothSelectedSubmission =
      { isValid := true, errors := [] } := by
    unfold dateValidationRule bothSelectedSubmission
    rw [if_neg]
    rintro ⟨hc, -⟩
    cases hc
  simp [validateTimeEntryForm, timeEntryFormRules, validateStep, e1, e2, e3, e4]

/-- C7 (amended): the validator enforces that the selection matching the
declared entry type is present — a submission with neither a task nor a
category selected is always invalid — but it does not reject a submission
with both selected (see the counterexample), so only the "never neither"
half of the claimed xor holds. -/
theorem validator_rejects_neither_selected (data : TimeEntryFormData)
    (hjt : data.selectedJiraTask = none)
    (hcat : data.selectedCategory = none) :
    (validateTimeEntryForm data).isValid = false := by
  rw [validate_isValid_eq_all]
  rcases htype : data.type
  · have h1 : (requiredJiraTaskRule data).isValid = false := by
      unfold requiredJiraTaskRule
      rw [if_pos ⟨htype, hjt⟩]
    simp [timeEntryFormRules, h1]
  · have h2 : (requiredCategoryRule data).isValid = false := by
      unfold requiredCategoryRule
      rw [if_pos ⟨htype, hcat⟩]
    simp [timeEntryFormRules, h2]

/-- C7 witness: the amended statement instantiated at a concrete submission
with neither selection. -/
theorem validator_rejects_neither_selected_witness :
    (validateTimeEntryForm
      { type := EntryKind.jira, selectedJiraTask := none,
        selectedCategory := none, decimalHours := 2, date := "2024-01-15",
        endDate := none }).isValid = false :=
  validator_rejects_neither_selected _ rfl rfl

/-! ### The lenient `hoursToDecimal` parser (date/time utilities module) -/

/-- Value of a fractional digit run: `parseFloat`'s contribution of the
digits after the decimal point. -/
def fracVal (fs : List Char) : ℚ := (digitsToNat fs : ℚ) / 10 ^ fs.length

/-- The unanchored regex `(\d+(?:\.\d+)?)u` tried at the current position
(`u` is `'h'` or `'m'`): a greedy digit run, an optional fractional part, then
the unit character; returns the numeric capture on success. -/
def matchNumThen (u : Char) (cs : List Char) : Option ℚ :=
  let p := digitSpan cs
  if p.1.isEmpty then none
  else
    match p.2 with
    | [] => none
    | c :: rest2 =>
      if c = u then some ((digitsToNat p.1 : ℚ))
      else if c = '.' then
        let q := digitSpan rest2
        if q.1.isEmpty then none
        else
          match q.2 with
          | [] => none
          | d :: _ =>
            if d = u then some ((digitsToNat p.1 : ℚ) + fracVal q.1)
            else none
      else none

/-- JavaScript `String.match` with an unanchored regex: try each start
position from the left and return the first successful match. -/
def scanFor (u : Char) : List Char → Option ℚ
  | [] => none
  | c :: cs =>
    match matchNumThen u (c :: cs) with
    | some v => some v
    | none => scanFor u cs

/-- The anchored bare-number test-and-parse `^\d+(?:\.\d+)?$` with
`parseFloat`'s value. -/
def bareNumberVal (cs : List Char) : Option ℚ :=
  let p := digitSpan cs
  if p.1.isEmpty then none
  else
    match p.2 with
    | [] => some ((digitsToNat p.1 : ℚ))
    | c :: rest2 =>
      if c = '.' then
        let q := digitSpan rest2
        if q.1.isEmpty then none
        else if q.2.isEmpty then some ((digitsToNat p.1 : ℚ) + fracVal q.1)
        else none
      else none

/-- Embeds `hoursToDecimal`: clean the input, add the hours match and the
minutes match (divided by 60), and if neither unit matched but the whole
cleaned string is a bare decimal number, take that number as decimal hours;
otherwise the accumulated total (0 for unrecognized input) is returned. -/
def hoursToDecimal (timeString : String) : ℚ :=
  let cleaned := cleanInput timeString
  let hoursMatch := scanFor 'h' cleaned
  let minutesMatch := scanFor 'm' cleaned
  let totalHours : ℚ := 0
  let totalHours := match hoursMatch with
    | some v => totalHours + v
    | none => totalHours
  let totalHours := match minutesMatch with
    | some v => totalHours + v / 60
    | none => totalHours
  if hoursMatch = none ∧ minutesMatch = none then
    match bareNumberVal cleaned with
    | some v => v
    | none => totalHours
  else totalHours

lemma mem_of_digitSpan_snd {cs : List Char} {c : Char}
    (h : c ∈ (digitSpan cs).2) : c ∈ cs := by
  rw [← digitSpan_eq_append cs]
  exact List.mem_append_right _ h

lemma matchNumThen_some_mem {u : Char} {cs : List Char} {v : ℚ}
    (h : matchNumThen u cs = some v) : u ∈ cs := by
  unfold matchNumThen at h
  simp only at h
  by_cases h1 : (digitSpan cs).1.isEmpty
  · rw [if_pos h1] at h; cases h
  · rw [if_neg h1] at h
    rcases hsnd : (digitSpan cs).2 with _ | ⟨c, rest2⟩
    · rw [hsnd] at h; cases h
    · rw [hsnd] at h
      simp only at h
      by_cases hc : c = u
      · apply mem_of_digitSpan_snd
        rw [hsnd, ← hc]
        exact List.mem_cons_self c rest2
      · rw [if_neg hc] at h
        by_cases hdot : c = '.'
        · rw [if_pos hdot] at h
          by_cases h2 : (digitSpan rest2).1.isEmpty
          · rw [if_pos h2] at h; cases h
          · rw [if_neg h2] at h
            rcases hq : (digitSpan rest2).2 with _ | ⟨d, rest3⟩
            · rw [hq] at h; cases h
            · rw [hq] at h
              simp only at h
              by_cases hd : d = u
              · have hd2 : u ∈ (digitSpan rest2).2 := by
                  rw [hq, ← hd]
                  exact List.mem_cons_self d rest3
                have hrest2 : u ∈ rest2 := mem_of_digitSpan_snd hd2
                apply mem_of_digitSpan_snd
                rw [hsnd]
                exact List.mem_cons_of_mem c hrest2
              · rw [if_neg hd] at h; cases h
        · rw [if_neg hdot] at h; cases h

lemma scanFor_eq_none_of_not_mem (u : Char) :
    ∀ cs : List Char, u ∉ cs → scanFor u cs = none := by
  intro cs
  induction cs with
  | nil => intro; rfl
  | cons c cs ih =>
    intro hu
    simp only [scanFor]
    rcases hm : matchNumThen u (c :: cs) with _ | v
    · exact ih fun hmem => hu (List.mem_cons_of_mem c hmem)
    · exact absurd (matchNumThen_some_mem hm) hu

lemma bareNumberVal_chars {cs : List Char} {v : ℚ}
    (h : bareNumberVal cs = some v) :
    ∀ c ∈ cs, c.isDigit = true ∨ c = '.' := by
  unfold bareNumberVal at h
  simp only at h
  have hspan := digitSpan_eq_append cs
  have hdig := digitSpan_digits cs
  by_cases h1 : (digitSpan cs).1.isEmpty
  · rw [if_pos h1] at h; cases h
  · rw [if_neg h1] at h
    rcases hsnd : (digitSpan cs).2 with _ | ⟨c0, rest2⟩
    · rw [hsnd] at hspan
      intro c hc
      rw [← hspan] at hc
      rcases List.mem_append.mp hc with hm | hm
      · exact Or.inl (hdig c hm)
      · cases hm
    · rw [hsnd] at h hspan
      simp only at h
      by_cases hdot : c0 = '.'
      · rw [if_pos hdot] at h
        by_cases h2 : (digitSpan rest2).1.isEmpty
        · rw [if_pos h2] at h; cases h
        · rw [if_neg h2] at h
          by_cases h3 : (digitSpan rest2).2.isEmpty
          · have hspan2 := digitSpan_eq_append rest2
            have hdig2 := digitSpan_digits rest2
            have hq2nil : (digitSpan rest2).2 = [] := List.isEmpty_iff.mp h3
            rw [hq2nil] at hspan2
            intro c hc
            rw [← hspan] at hc
            rcases List.mem_append.mp hc with hm | hm
            · exact Or.inl (hdig c hm)
            · rcases List.mem_cons.mp hm with rfl | hm2
              · exact Or.inr hdot
              · rw [← hspan2] at hm2
                rcases List.mem_append.mp hm2 with hm3 | hm3
                · exact Or.inl (hdig2 c hm3)
                · cases hm3
          · rw [if_neg h3] at h; cases h
      · rw [if_neg hdot] at h; cases h

/-- C10: `hoursToDecimal`, unlike `parseTimeInput`, returns the value of any
bare decimal-number input (e.g. "5"), accepts fractional components such as
"1.5h", and returns 0 (not an invalid marker) for unrecognized input. -/
theorem hoursToDecimal_spec :
    (∀ (s : String) (v : ℚ), bareNumberVal (cleanInput s) = some v →
      hoursToDecimal s = v)
    ∧ hoursToDecimal "1.5h" = 3/2
    ∧ (∀ s : String, scanFor 'h' (cleanInput s) = none →
        scanFor 'm' (cleanInput s) = none →
        bareNumberVal (cleanInput s) = none → hoursToDecimal s = 0)
    ∧ hoursToDecimal "5" = 5
    ∧ (parseTimeInput "5").isValid = false
    ∧ hoursToDecimal "xyz" = 0 := by
  have hbare_gen : ∀ (s : String) (v : ℚ),
      bareNumberVal (cleanInput s) = some v → hoursToDecimal s = v := by
    intro s v h
    have hchars := bareNumberVal_chars h
    have hh : ('h') ∉ cleanInput s := by
      intro hmem
      rcases hchars _ hmem with hd | hd
      · exact absurd hd (by decide)
      · exact absurd hd (by decide)
    have hm : ('m') ∉ cleanInput s := by
      intro hmem
      rcases hchars _ hmem with hd | hd
      · exact absurd hd (by decide)
      · exact absurd hd (by decide)
    have hsh : scanFor 'h' (cleanInput s) = none :=
      scanFor_eq_none_of_not_mem _ _ hh
    have hsm : scanFor 'm' (cleanInput s) = none :=
      scanFor_eq_none_of_not_mem _ _ hm
    simp only [hoursToDecimal]
    rw [hsh, hsm, h]
    simp
  have hzero_gen : ∀ s : String, scanFor 'h' (cleanInput s) = none →
      scanFor 'm' (cleanInput s) = none →
      bareNumberVal (cleanInput s) = none → hoursToDecimal s = 0 := by
    intro s h1 h2 h3
    simp only [hoursToDecimal]
    rw [h1, h2, h3]
    simp
  refine ⟨hbare_gen, ?_, hzero_gen, ?_, ?_, ?_⟩
  · have hmh : scanFor 'h' (cleanInput "1.5h") =
        some ((digitsToNat ['1'] : ℚ) + fracVal ['5']) := rfl
    have hmm2 : scanFor 'm' (cleanInput "1.5h") = none := rfl
    simp only [hoursToDecimal]
    rw [hmh, hmm2]
    simp only [reduceCtorEq, false_and, if_false]
    rw [show digitsToNat ['1'] = 1 from by decide]
    simp [fracVal, show digitsToNat ['5'] = 5 from by decide]
    norm_num
  · apply hbare_gen
    have h0 : bareNumberVal (cleanInput "5") =
        some ((digitsToNat ['5'] : ℚ)) := rfl
    rw [h0, show digitsToNat ['5'] = 5 from by decide]
    norm_num
  · have hp : parseTimeInput "5" = invalidParsed "5" := by
      apply parseTimeInput_eq_invalid
      intro N M hm
      rw [show matchTimeRegex (cleanInput "5") = none from by decide] at hm
      cases hm
    rw [hp]
    rfl
  · exact hzero_gen "xyz" rfl rfl rfl

/-- C10 witness: the bare-number clause instantiated at "7.25". -/
theorem hoursToDecimal_spec_witness : hoursToDecimal "7.25" = 29/4 :=
  hoursToDecimal_spec.1 "7.25" (29/4) (by
    have h0 : bareNumberVal (cleanInput "7.25") =
        some ((digitsToNat ['7'] : ℚ) + fracVal ['2', '5']) := rfl
    rw [h0, show digitsToNat ['7'] = 7 from by decide]
    simp [fracVal, show digitsToNat ['2', '5'] = 25 from by decide]
    norm_num)

/-! ### The day reconciliation classifier (tracked-time page) -/

/-- The seven day statuses. -/
inductive DayStatus
  | weekend
  | future
  | missing
  | noOfficeTime
  | noEntries
  | mismatch
  | complete
deriving DecidableEq, Repr

/-- A JavaScript `Date`, abstracted to what `getDayStatus` inspects: its
timestamp (for the ordering against `new Date()`) and its `getDay()` day of
week (0 = Sunday … 6 = Saturday). -/
structure JSDate where
  ts : ℤ
  dow : Fin 7
deriving DecidableEq

/-- `isWeekend` from the tracked-time page: `getDay()` is 0 (Sunday) or 6
(Saturday). -/
def isWeekend (d : JSDate) : Bool :=
  d.dow.val == 0 || d.dow.val == 6

/-- A time entry as the page sees it; only the optional `hours` field enters
the day totals. -/
structure PageTimeEntry where
  hours : Option ℚ
deriving DecidableEq

/-- `dayEntries.reduce((sum, entry) => sum + (entry.hours || 0), 0)` — the
`totalTaskHours` the page computes when assembling a `DayData`. -/
def totalTaskHours (entries : List PageTimeEntry) : ℚ :=
  entries.foldl (fun sum e => sum + e.hours.getD 0) 0

/-- The `DayData` record of the tracked-time page. -/
structure DayData where
  date : JSDate
  timeEntries : List PageTimeEntry
  officeTime : Option ℚ
  totalTaskHours : ℚ

/-- `day.officeTime !== undefined && day.officeTime > 0`. -/
def hasOfficeTime (o : Option ℚ) : Bool :=
  match o with
  | none => false
  | some t => if 0 < t then true else false

/-- Embeds `getDayStatus`; `now` stands for `new Date()` at call time.  On
the mismatch branch office time is present and positive, so `getD 0` reads
the stored number exactly as the JS does. -/
def getDayStatus (now : JSDate) (day : DayData) : DayStatus :=
  if isWeekend day.date then DayStatus.weekend
  else if now.ts < day.date.ts then DayStatus.future
  else
    let hasTimeEntries : Bool :=
      if 0 < day.timeEntries.length then true else false
    let hOffice : Bool := hasOfficeTime day.officeTime
    if !hasTimeEntries && !hOffice then DayStatus.missing
    else if !hOffice then DayStatus.noOfficeTime
    else if !hasTimeEntries then DayStatus.noEntries
    else if 1/2 < |day.totalTaskHours - day.officeTime.getD 0| then
      DayStatus.mismatch
    else DayStatus.complete

/-- The classification exactly as the specification words it: weekend
(Saturday or Sunday) first, then future, then missing (no entries and no
positive office time), then no-office-time (office time absent or zero), then
no-entries, then the 0.5-hour tolerance comparison. -/
def dayStatusSpec (now date : JSDate) (entries : List PageTimeEntry)
    (officeTime : Option ℚ) : DayStatus :=
  if date.dow.val = 6 ∨ date.dow.val = 0 then DayStatus.weekend
  else if now.ts < date.ts then DayStatus.future
  else if entries = [] ∧ ¬(officeTime.isSome = true ∧ 0 < officeTime.getD 0)
    then DayStatus.missing
  else if officeTime = none ∨ officeTime = some 0 then DayStatus.noOfficeTime
  else if entries = [] then DayStatus.noEntries
  else if 1/2 < |totalTaskHours entries - officeTime.getD 0| then
    DayStatus.mismatch
  else DayStatus.complete

/-- C1: for every day input with a non-negative recorded office time —
a date, the day's entry list, and the optional office-time total — the page's
classifier agrees with the specification's seven-way classification in the
specified priority order. -/
theorem getDayStatus_meets_spec (now date : JSDate)
    (entries : List PageTimeEntry) (officeTime : Option ℚ)
    (hnn : 0 ≤ officeTime.getD 0) :
    getDayStatus now
      { date := date, timeEntries := entries, officeTime := officeTime,
        totalTaskHours := totalTaskHours entries } =
      dayStatusSpec now date entries officeTime := by
  have hwk : isWeekend date = true ↔
      (date.dow.val = 6 ∨ date.dow.val = 0) := by
    unfold isWeekend
    rw [Bool.or_eq_true, beq_iff_eq, beq_iff_eq]
    tauto
  simp only [getDayStatus, dayStatusSpec]
  by_cases hw : date.dow.val = 6 ∨ date.dow.val = 0
  · rw [if_pos (hwk.mpr hw), if_pos hw]
  · rw [if_neg (fun hc => hw (hwk.mp hc)), if_neg hw]
    by_cases hf : now.ts < date.ts
    · rw [if_pos hf, if_pos hf]
    · rw [if_neg hf, if_neg hf]
      rcases officeTime with _ | t
      · rcases entries with _ | ⟨e, es⟩
        · simp [hasOfficeTime]
        · simp [hasOfficeTime]
      · have ht : (0 : ℚ) ≤ t := by simpa using hnn
        rcases eq_or_lt_of_le ht with ht0 | htpos
        · rcases entries with _ | ⟨e, es⟩
          · simp [hasOfficeTime, ← ht0]
          · simp [hasOfficeTime, ← ht0]
        · have htne : t ≠ 0 := ne_of_gt htpos
          rcases entries with _ | ⟨e, es⟩
          · simp [hasOfficeTime, htpos, htne]
          · simp [hasOfficeTime, htpos, htne]

/-- C1 witness: the general statement instantiated at a concrete weekday in
the past with one 4-hour entry and 4.3 hours of office time. -/
theorem getDayStatus_meets_spec_witness :
    (0 : ℚ) ≤ (some (43/10 : ℚ)).getD 0 ∧
    getDayStatus { ts := 1000, dow := 2 }
      { date := { ts := 0, dow := 2 }, timeEntries := [{ hours := some 4 }],
        officeTime := some (43/10),
        totalTaskHours := totalTaskHours [{ hours := some 4 }] } =
      dayStatusSpec { ts := 1000, dow := 2 } { ts := 0, dow := 2 }
        [{ hours := some 4 }] (some (43/10)) :=
  ⟨by norm_num [Option.getD],
    getDayStatus_meets_spec _ _ _ _ (by norm_num [Option.getD])⟩

end TimeTracking
